import Mathlib

set_option linter.unusedVariables false

/-!
Shallow embedding of the record-decoding core of arroyo
(crates/arroyo-formats/src/de.rs): the framing splitter
(FramingIterator), the ArrowDeserializer dispatch and per-record
decode, and the flush/stitch logic under the two bad-data policies.

Bytes are modelled as Nat (a byte value), byte strings as List Nat.
The newline byte is 10.
-/

/-- Byte strings (Rust byte slices). -/
abbrev Bytes := List Nat

/-- memchr::memchr — index of the first occurrence of a byte in a slice. -/
def memchr (needle : Nat) : Bytes → Option Nat
  | [] => none
  | b :: rest => if b = needle then some 0 else (memchr needle rest).map (fun i => i + 1)

/-- arroyo_rpc::formats::NewlineDelimitedFraming. -/
structure NewlineDelimitedFraming where
  max_line_length : Option Nat
deriving Repr, DecidableEq

/-- arroyo_rpc::formats::FramingMethod. -/
inductive FramingMethod
  | newline (nl : NewlineDelimitedFraming)
deriving Repr, DecidableEq

/-- arroyo_rpc::formats::Framing. -/
structure Framing where
  method : FramingMethod
deriving Repr, DecidableEq

/-- The state of de.rs FramingIterator (lines 24-38): the optional framing
policy, the message buffer, and the current offset. -/
structure FramingIterator where
  framing : Option Framing
  buf : Bytes
  offset : Nat
deriving Repr, DecidableEq

/-- One step of Iterator::next for FramingIterator (de.rs lines 43-72).
`unwrap_or(u64::MAX)`: no slice holds more than u64::MAX bytes, so the
length cap is the identity when max_line_length is None; the None arm
of the inner match renders that. -/
def FramingIterator.next (it : FramingIterator) : Option (Bytes × FramingIterator) :=
  if it.buf.length ≤ it.offset then
    none
  else
    match it.framing with
    | some framing =>
      match framing.method with
      | .newline nl =>
        let endIdx :=
          match memchr 10 (it.buf.drop it.offset) with
          | some i => it.offset + i
          | none => it.buf.length
        let prev := it.offset
        let length :=
          match nl.max_line_length with
          | some l => min (endIdx - prev) l
          | none => endIdx - prev
        some ((it.buf.drop prev).take length, { it with offset := endIdx + 1 })
    | none => some (it.buf, { it with offset := it.buf.length })

/-- Fuel-indexed unfolding of the framing iterator. Each successful step
strictly increases the offset, so `buf.length + 1 - offset` steps always
suffice (see `FramingIterator.records`). -/
def recordsFuel : Nat → FramingIterator → List Bytes
  | 0, _ => []
  | fuel + 1, it =>
    match it.next with
    | none => []
    | some (r, it') => r :: recordsFuel fuel it'

/-- All records produced by a FramingIterator, i.e. the collected results
of repeatedly calling Iterator::next until it returns None. -/
def FramingIterator.records (it : FramingIterator) : List Bytes :=
  recordsFuel (it.buf.length + 1 - it.offset) it

/-- Spec-side definition (natural-language spec, section 8): the
newline-delimited segments of a byte string, in the standard convention:
an input with k newline bytes has k + 1 segments, and in particular the
empty input has a single empty segment. -/
def splitNL : Bytes → List Bytes
  | [] => [[]]
  | b :: rest =>
    if b = 10 then [] :: splitNL rest
    else
      match splitNL rest with
      | [] => [[b]]
      | s :: ss => (b :: s) :: ss

/-- Remove the final segment of a segment list when that segment is empty. -/
def dropTrailingEmpty (ss : List Bytes) : List Bytes :=
  match ss.getLast? with
  | some [] => ss.dropLast
  | _ => ss

/-- Spec-side definition: the record count asserted by the claim for
newline framing — the number of newline-delimited segments, ignoring a
single trailing empty segment after a final newline byte. -/
def specClaimedRecordCount (buf : Bytes) : Nat :=
  if buf.getLast? = some 10 then (splitNL buf).length - 1 else (splitNL buf).length

/-- Truncation applied to each segment by an optional max_line_length. -/
def capSeg : Option Nat → Bytes → Bytes
  | none, r => r
  | some l, r => r.take l

-- ### Framing helper lemmas

theorem recordsFuel_stop (fuel : Nat) (it : FramingIterator)
    (h : it.buf.length ≤ it.offset) : recordsFuel fuel it = [] := by
  cases fuel with
  | zero => rfl
  | succ n => simp [recordsFuel, FramingIterator.next, h]

theorem memchr_eq_none (c : Nat) (l : Bytes) (h : memchr c l = none) : c ∉ l := by
  induction l with
  | nil => simp
  | cons b rest ih =>
    by_cases hb : b = c
    · simp [memchr, hb] at h
    · cases hm : memchr c rest with
      | some j => rw [memchr, if_neg hb, hm] at h; simp at h
      | none =>
        have hn := ih hm
        simp only [List.mem_cons, not_or]
        exact ⟨fun hc => hb hc.symm, hn⟩

theorem memchr_eq_some (c : Nat) (l : Bytes) (i : Nat) (h : memchr c l = some i) :
    ∃ pre post, l = pre ++ c :: post ∧ pre.length = i ∧ c ∉ pre := by
  induction l generalizing i with
  | nil => simp [memchr] at h
  | cons b rest ih =>
    by_cases hb : b = c
    · rw [memchr, if_pos hb] at h
      simp only [Option.some_inj] at h
      exact ⟨[], rest, by simp [hb], by simp [← h], by simp⟩
    · cases hm : memchr c rest with
      | none => rw [memchr, if_neg hb, hm] at h; simp at h
      | some j =>
        rw [memchr, if_neg hb, hm] at h
        simp at h
        obtain ⟨pre, post, hl, hlen, hnm⟩ := ih j hm
        refine ⟨b :: pre, post, by simp [hl], by simp [hlen, ← h], ?_⟩
        simp only [List.mem_cons, not_or]
        exact ⟨fun hc => hb hc.symm, hnm⟩

theorem splitNL_ne_nil (l : Bytes) : splitNL l ≠ [] := by
  induction l with
  | nil => simp [splitNL]
  | cons b rest ih =>
    simp only [splitNL]
    split
    · simp
    · split
      · simp
      · simp

theorem splitNL_no_newline (l : Bytes) (h : 10 ∉ l) : splitNL l = [l] := by
  induction l with
  | nil => rfl
  | cons b rest ih =>
    simp only [List.mem_cons, not_or] at h
    have hb : ¬ b = 10 := fun hh => h.1 hh.symm
    simp [splitNL, hb, ih h.2]

theorem splitNL_append (pre post : Bytes) (h : 10 ∉ pre) :
    splitNL (pre ++ 10 :: post) = pre :: splitNL post := by
  induction pre with
  | nil => simp [splitNL]
  | cons b rest ih =>
    simp only [List.mem_cons, not_or] at h
    have hb : ¬ b = 10 := fun hh => h.1 hh.symm
    simp [splitNL, hb, ih h.2]

theorem dropTrailingEmpty_cons (x : Bytes) (ss : List Bytes) (h : ss ≠ []) :
    dropTrailingEmpty (x :: ss) = x :: dropTrailingEmpty ss := by
  cases ss with
  | nil => exact absurd rfl h
  | cons y ys =>
    simp only [dropTrailingEmpty, List.getLast?_cons_cons]
    split
    · simp [List.dropLast]
    · rfl

theorem take_length_append (pre : Bytes) (c : Nat) (post : Bytes) :
    (pre ++ c :: post).take pre.length = pre := by
  induction pre with
  | nil => rfl
  | cons b rest ih => simp [ih]

theorem drop_length_succ_append (pre : Bytes) (c : Nat) (post : Bytes) :
    (pre ++ c :: post).drop (pre.length + 1) = post := by
  induction pre with
  | nil => rfl
  | cons b rest ih => simp [ih]

theorem next_at_end (it : FramingIterator) (h : it.buf.length ≤ it.offset) :
    it.next = none := by
  simp [FramingIterator.next, h]

theorem next_newline_memchr_some (buf : Bytes) (off : Nat) (nl : NewlineDelimitedFraming)
    (i : Nat) (hoff : off < buf.length) (hm : memchr 10 (buf.drop off) = some i) :
    FramingIterator.next ⟨some ⟨.newline nl⟩, buf, off⟩ =
      some ((buf.drop off).take
              (match nl.max_line_length with
               | some l => min i l
               | none => i),
            ⟨some ⟨.newline nl⟩, buf, off + i + 1⟩) := by
  simp only [FramingIterator.next, hm]
  rw [if_neg (by omega)]
  have : off + i - off = i := by omega
  simp [this]

theorem next_newline_memchr_none (buf : Bytes) (off : Nat) (nl : NewlineDelimitedFraming)
    (hoff : off < buf.length) (hm : memchr 10 (buf.drop off) = none) :
    FramingIterator.next ⟨some ⟨.newline nl⟩, buf, off⟩ =
      some ((buf.drop off).take
              (match nl.max_line_length with
               | some l => min (buf.length - off) l
               | none => buf.length - off),
            ⟨some ⟨.newline nl⟩, buf, buf.length + 1⟩) := by
  simp only [FramingIterator.next, hm]
  rw [if_neg (by omega)]

theorem next_no_framing (buf : Bytes) (off : Nat) (hoff : off < buf.length) :
    FramingIterator.next ⟨none, buf, off⟩ = some (buf, ⟨none, buf, buf.length⟩) := by
  simp only [FramingIterator.next]
  rw [if_neg (by omega)]

/-- Main characterisation of newline framing without a length cap: the
iterator yields exactly the newline-delimited segments of the remaining
input, with the final segment removed when it is empty. -/
theorem recordsFuel_newline (fuel : Nat) :
    ∀ buf off, buf.length - off < fuel →
      recordsFuel fuel ⟨some ⟨.newline ⟨none⟩⟩, buf, off⟩ =
        dropTrailingEmpty (splitNL (buf.drop off)) := by
  induction fuel with
  | zero => intro buf off h; omega
  | succ fuel ih =>
    intro buf off h
    by_cases hoff : buf.length ≤ off
    · rw [recordsFuel, next_at_end _ hoff]
      rw [List.drop_eq_nil_of_le hoff]
      rfl
    · push_neg at hoff
      cases hm : memchr 10 (buf.drop off) with
      | some i =>
        obtain ⟨pre, post, hl, hlen, hnm⟩ := memchr_eq_some 10 (buf.drop off) i hm
        have hlenl : (buf.drop off).length = buf.length - off := by
          simp [List.length_drop]
        have hppl : (buf.drop off).length = pre.length + 1 + post.length := by
          simp [hl]; omega
        rw [recordsFuel, next_newline_memchr_some buf off _ i hoff hm]
        have hdrop : buf.drop (off + i + 1) = post := by
          have h1 : buf.drop (off + i + 1) = (buf.drop off).drop (i + 1) := by
            rw [List.drop_drop]; congr 1
          rw [h1, hl, ← hlen, drop_length_succ_append]
        have htake : (buf.drop off).take i = pre := by
          rw [hl, ← hlen, take_length_append]
        have hrec := ih buf (off + i + 1) (by omega)
        simp only at hrec ⊢
        rw [hrec, hdrop, htake, hl, splitNL_append pre post hnm,
          dropTrailingEmpty_cons pre _ (splitNL_ne_nil post)]
      | none =>
        have hnn := memchr_eq_none 10 (buf.drop off) hm
        have hlenl : (buf.drop off).length = buf.length - off := by
          simp [List.length_drop]
        rw [recordsFuel, next_newline_memchr_none buf off _ hoff hm]
        simp only
        rw [recordsFuel_stop _ _ (by simp)]
        have htake : (buf.drop off).take (buf.length - off) = buf.drop off := by
          rw [← hlenl, List.take_length]
        rw [htake, splitNL_no_newline _ hnn]
        have hne : buf.drop off ≠ [] := by
          intro hc
          rw [hc] at hlenl
          simp at hlenl
          omega
        cases hd : buf.drop off with
        | nil => exact absurd hd hne
        | cons x xs => rfl

/-- Newline framing with a length cap yields, step for step, the
`take`-truncation of what the uncapped iterator yields. -/
theorem recordsFuel_cap (fuel : Nat) :
    ∀ buf off l,
      recordsFuel fuel ⟨some ⟨.newline ⟨some l⟩⟩, buf, off⟩ =
        (recordsFuel fuel ⟨some ⟨.newline ⟨none⟩⟩, buf, off⟩).map (fun r => r.take l) := by
  induction fuel with
  | zero => intro buf off l; rfl
  | succ fuel ih =>
    intro buf off l
    by_cases hoff : buf.length ≤ off
    · rw [recordsFuel, recordsFuel, next_at_end _ hoff, next_at_end _ hoff]
      rfl
    · push_neg at hoff
      cases hm : memchr 10 (buf.drop off) with
      | some i =>
        rw [recordsFuel, recordsFuel,
          next_newline_memchr_some buf off _ i hoff hm,
          next_newline_memchr_some buf off _ i hoff hm]
        simp only [List.map_cons, List.take_take]
        rw [ih, Nat.min_comm]
      | none =>
        rw [recordsFuel, recordsFuel,
          next_newline_memchr_none buf off _ hoff hm,
          next_newline_memchr_none buf off _ hoff hm]
        simp only [List.map_cons, List.take_take]
        rw [ih, Nat.min_comm]

/-- The records of an uncapped newline FramingIterator over a whole
message are the newline-delimited segments with an empty final segment
removed. -/
theorem records_newline_eq (buf : Bytes) :
    FramingIterator.records ⟨some ⟨.newline ⟨none⟩⟩, buf, 0⟩ =
      dropTrailingEmpty (splitNL buf) := by
  rw [FramingIterator.records]
  simp only
  have := recordsFuel_newline (buf.length + 1 - 0) buf 0 (by omega)
  simpa using this

/-- The records of a capped newline FramingIterator over a whole message
are the truncations of the uncapped records. -/
theorem records_cap_eq (buf : Bytes) (l : Nat) :
    FramingIterator.records ⟨some ⟨.newline ⟨some l⟩⟩, buf, 0⟩ =
      (FramingIterator.records ⟨some ⟨.newline ⟨none⟩⟩, buf, 0⟩).map (fun r => r.take l) := by
  rw [FramingIterator.records, FramingIterator.records]
  exact recordsFuel_cap _ buf 0 l

/-!
## JSON rows and the incremental decoder

The serde_json / arrow_json collaborators are external libraries.  JSON
documents that reach the incremental decoder are flat objects with
scalar fields, which is what every structured format in de.rs feeds it
(one serialized object per record), so a row is modelled as an ordered
list of (field name, scalar value) pairs.
-/

/-- A scalar JSON value. -/
inductive JVal
  | jint (i : Int)
  | jstr (s : Bytes)
  | jbytes (s : Bytes)
  | jnull
deriving Repr, DecidableEq

/-- A JSON object: one decoded row. -/
abbrev JRow := List (Bytes × JVal)

/-- The declared Arrow type of an output column (the dynamic type of its
column builder). -/
inductive CType
  | int64
  | int32
  | str
  | bytes
  | tsNanos
deriving Repr, DecidableEq

/-- ASCII digits of a natural number, most significant first; the fuel
argument (any bound on the number, itself included) keeps the recursion
structural so the definition reduces definitionally. -/
def natDigitsAux : Nat → Nat → Bytes
  | 0, n => [48 + n % 10]
  | fuel + 1, n => if n < 10 then [48 + n] else natDigitsAux fuel (n / 10) ++ [48 + n % 10]

/-- ASCII digits of a natural number, most significant first. -/
def natDigits (n : Nat) : Bytes := natDigitsAux n n

/-- serde_json rendering of an integer. -/
def serializeInt (i : Int) : Bytes :=
  if i < 0 then 45 :: natDigits i.natAbs else natDigits i.natAbs

/-- serde_json rendering of a scalar value (string contents are emitted
verbatim; the concrete inputs in scope need no escaping). -/
def serializeJVal : JVal → Bytes
  | .jint i => serializeInt i
  | .jstr s => 34 :: s ++ [34]
  | .jbytes s => 34 :: s ++ [34]
  | .jnull => [110, 117, 108, 108]

/-- serde_json rendering of the fields of an object, comma separated. -/
def serializeFields : JRow → Bytes
  | [] => []
  | [(n, v)] => 34 :: n ++ 34 :: 58 :: serializeJVal v
  | (n, v) :: rest => 34 :: n ++ 34 :: 58 :: serializeJVal v ++ 44 :: serializeFields rest

/-- serde_json::Value::to_string for an object row. -/
def serializeRow (r : JRow) : Bytes :=
  123 :: serializeFields r ++ [125]

/-- Leading run of ASCII digits and the remaining bytes. -/
def takeDigits : Bytes → Bytes × Bytes
  | [] => ([], [])
  | b :: rest =>
    if 48 ≤ b ∧ b ≤ 57 then
      let (ds, rem) := takeDigits rest
      (b :: ds, rem)
    else ([], b :: rest)

/-- Numeric value of a digit run. -/
def digitsToNat (ds : Bytes) : Nat :=
  ds.foldl (fun a d => a * 10 + (d - 48)) 0

/-- Bytes of a string literal up to the closing quote, plus the rest
after it; none when the quote never closes. -/
def takeUntilQuote : Bytes → Option (Bytes × Bytes)
  | [] => none
  | b :: rest =>
    if b = 34 then some ([], rest)
    else (takeUntilQuote rest).map (fun p => (b :: p.1, p.2))

/-- Parse one scalar JSON value (integer or string literal). -/
def parseVal : Bytes → Option (JVal × Bytes)
  | [] => none
  | b :: rest =>
    if b = 34 then
      (takeUntilQuote rest).map (fun p => (JVal.jstr p.1, p.2))
    else if b = 45 then
      match takeDigits rest with
      | ([], _) => none
      | (ds, rem) => some (JVal.jint (-(digitsToNat ds : Int)), rem)
    else
      match takeDigits (b :: rest) with
      | ([], _) => none
      | (ds, rem) => some (JVal.jint (digitsToNat ds), rem)

/-- Parse the fields of an object after the opening brace; fuel-driven
since each field consumes an unknown number of bytes. -/
def parseFields (fuel : Nat) (bytes : Bytes) : Option (JRow × Bytes) :=
  match fuel with
  | 0 => none
  | fuel + 1 =>
    match bytes with
    | 34 :: rest =>
      match takeUntilQuote rest with
      | none => none
      | some (name, rest1) =>
        match rest1 with
        | 58 :: rest2 =>
          match parseVal rest2 with
          | none => none
          | some (v, rest3) =>
            match rest3 with
            | 44 :: rest4 =>
              (parseFields fuel rest4).map (fun p => ((name, v) :: p.1, p.2))
            | 125 :: rest4 => some ([(name, v)], rest4)
            | _ => none
        | _ => none
    | _ => none

/-- Parse one complete JSON object occupying the whole record. -/
def parseRow (bytes : Bytes) : Option JRow :=
  match bytes with
  | 123 :: 125 :: rest => if rest = [] then some [] else none
  | 123 :: rest =>
    match parseFields (rest.length + 1) rest with
    | some (row, rem) => if rem = [] then some row else none
    | none => none
  | _ => none

/-- First value bound to a field name in a row. -/
def lookupField (r : JRow) (name : Bytes) : Option JVal :=
  (r.find? (fun p => p.1 = name)).map (fun p => p.2)

/-- Whether a scalar value can be stored in a column of the given type
(null always can; the schema's columns are nullable). -/
def valConforms : CType → JVal → Bool
  | _, .jnull => true
  | .int64, .jint _ => true
  | .int32, .jint _ => true
  | .tsNanos, .jint _ => true
  | .str, .jstr _ => true
  | .bytes, .jbytes _ => true
  | _, _ => false

/-- Whether a row conforms to a decoder schema: every schema field that
the row binds must hold a value of the column's type; missing fields
read as null. Extra row fields are ignored (strict mode is off). -/
def rowConforms (fields : List (Bytes × CType)) (r : JRow) : Bool :=
  fields.all fun p =>
    match lookupField r p.1 with
    | none => true
    | some v => valConforms p.2 v

/-- Columnar output for a decoder schema: one column per schema field,
one entry per row, missing fields materialised as null. -/
def buildColumns (fields : List (Bytes × CType)) (rows : List JRow) : List (List JVal) :=
  fields.map (fun f => rows.map (fun r => (lookupField r f.1).getD .jnull))

/-- Modelled external collaborator: arrow_json's incremental Decoder as
configured by de.rs (strict mode off, bad data allowed under Drop).  It
accumulates one row per successfully parsed document; type checking
against the schema happens at flush time, matching the repository's own
tests (a type-mismatched row is accepted by decode and surfaces at
flush). -/
structure JsonDecoder where
  fields : List (Bytes × CType)
  rows : List JRow
deriving Repr, DecidableEq

/-- Decoder::decode — parse one document and buffer it; a syntax error
is reported immediately (none) and buffers nothing. -/
def JsonDecoder.decode (d : JsonDecoder) (bytes : Bytes) : Option JsonDecoder :=
  match parseRow bytes with
  | some r => some { d with rows := d.rows ++ [r] }
  | none => none

/-- Decoder::flush — strict flush, per the spec's contract for the Fail
policy: nothing buffered yields Ok(None); any nonconforming row yields a
single error for the whole flush; the buffered rows are consumed either
way. -/
def JsonDecoder.flush (d : JsonDecoder) :
    Except String (Option (List (List JVal))) × JsonDecoder :=
  if d.rows.isEmpty then (.ok none, d)
  else if d.rows.all (rowConforms d.fields) then
    (.ok (some (buildColumns d.fields d.rows)), { d with rows := [] })
  else (.error "schema mismatch", { d with rows := [] })

/-- Decoder::flush_with_bad_data — lenient flush, per the spec's contract
for the Drop policy: returns the surviving rows' columns plus the boolean
keep-mask over the original row positions. -/
def JsonDecoder.flush_with_bad_data (d : JsonDecoder) :
    Option (List (List JVal) × List Bool) × JsonDecoder :=
  if d.rows.isEmpty then (none, d)
  else
    (some (buildColumns d.fields (d.rows.filter (rowConforms d.fields)),
           d.rows.map (rowConforms d.fields)),
     { d with rows := [] })

/-!
## ArrowDeserializer

Panics (slice-index out of range, unreachable, todo, failed builder
downcasts, missing expected columns) are modelled as `none`; a returned
SourceError::bad_data is a `some _` error value.
-/

/-- arroyo_rpc::formats::Format, restricted to the parameters de.rs
reads. Json carries (confluent_schema_registry, unstructured); Avro and
Protobuf carry into_unstructured_json. -/
inductive Format
  | rawString
  | rawBytes
  | json (confluent_schema_registry : Bool) (unstructured : Bool)
  | avro (into_unstructured_json : Bool)
  | protobuf (into_unstructured_json : Bool)
  | parquet
deriving Repr, DecidableEq

/-- arroyo_rpc::formats::BadData. -/
inductive BadData
  | fail
  | drop
deriving Repr, DecidableEq

/-- ArroyoSchema: the ordered output columns (name and builder type) and
the index of the event-timestamp column. -/
structure ArroyoSchema where
  fields : List (Bytes × CType)
  timestamp_index : Nat
deriving Repr, DecidableEq

/-- Schema::column_with_name — index of the column with a given name. -/
def ArroyoSchema.column_with_name (s : ArroyoSchema) (name : Bytes) : Option Nat :=
  s.fields.findIdx? (fun p => p.1 = name)

/-- ArroyoSchema::schema_without_timestamp — the decoder's projection. -/
def ArroyoSchema.schema_without_timestamp (s : ArroyoSchema) : List (Bytes × CType) :=
  s.fields.eraseIdx s.timestamp_index

/-- The column builder slice handed to deserialize_slice: the values
appended so far, one list per output column. -/
abbrev Buffer := List (List JVal)

/-- Column names used by de.rs. -/
def valueName : Bytes := [118, 97, 108, 117, 101]

def topicName : Bytes := [116, 111, 112, 105, 99]

def partitionName : Bytes := [112, 97, 114, 116, 105, 116, 105, 111, 110]

def offsetName : Bytes := [111, 102, 102, 115, 101, 116]

/-- Two's-complement interpretation of `as i64` applied to a u128
nanosecond count (arroyo_types::to_nanos followed by the cast). -/
def i64cast (n : Nat) : Int :=
  if n % 2 ^ 64 < 2 ^ 63 then ((n % 2 ^ 64 : Nat) : Int)
  else ((n % 2 ^ 64 : Nat) : Int) - 2 ^ 64

/-- Append a value to the builder at a column index after the runtime
downcast: the builder's dynamic type is the schema's declared type for
that column (the builders are constructed from the schema), so a
mismatch with the expected type is the downcast panic (none). -/
def appendChecked (schema : ArroyoSchema) (b : Buffer) (idx : Nat) (expected : CType)
    (v : JVal) : Option Buffer :=
  match schema.fields.get? idx with
  | some f =>
    if f.2 = expected then some (b.set idx ((b.getD idx []) ++ [v])) else none
  | none => none

/-- de.rs add_timestamp (lines 467-477). -/
def add_timestamp (schema : ArroyoSchema) (b : Buffer) (idx : Nat) (ts : Nat) :
    Option Buffer :=
  appendChecked schema b idx .tsNanos (.jint (i64cast ts))

/-- de.rs add_kafka_metadata (lines 515-537): locate the topic, partition
and offset columns (panicking if any is missing) and append the supplied
metadata to each. -/
def add_kafka_metadata (schema : ArroyoSchema) (b : Buffer) (topic : Bytes)
    (partition : Int) (offset : Int) : Option Buffer :=
  match schema.column_with_name topicName with
  | none => none
  | some topicIdx =>
    match schema.column_with_name partitionName with
    | none => none
    | some partitionIdx =>
      match schema.column_with_name offsetName with
      | none => none
      | some offsetIdx =>
        match appendChecked schema b topicIdx .str (.jstr topic) with
        | none => none
        | some b1 =>
          match appendChecked schema b1 partitionIdx .int32 (.jint partition) with
          | none => none
          | some b2 => appendChecked schema b2 offsetIdx .int64 (.jint offset)

/-- de.rs deserialize_raw_string (lines 436-447). -/
def deserialize_raw_string (schema : ArroyoSchema) (b : Buffer) (msg : Bytes) :
    Option Buffer :=
  match schema.column_with_name valueName with
  | none => none
  | some idx => appendChecked schema b idx .str (.jstr msg)

/-- de.rs deserialize_raw_bytes (lines 449-460). -/
def deserialize_raw_bytes (schema : ArroyoSchema) (b : Buffer) (msg : Bytes) :
    Option Buffer :=
  match schema.column_with_name valueName with
  | none => none
  | some idx => appendChecked schema b idx .bytes (.jbytes msg)

/-- The mutable state of de.rs ArrowDeserializer.  json_decoder pairs the
incremental decoder with the side-channel timestamp builder;
kafka_metadata_builder is the (offset, partition, topic) side-channel
builder triple.  proto_pool together with the compiled descriptor is
represented by the decode function it induces (crate::proto::de is
outside the sources in scope); buffered_since (a wall-clock Instant) and
the Avro schema-registry state are not modelled — no claim depends on
them. -/
structure ArrowDeserializer where
  format : Format
  framing : Option Framing
  schema : ArroyoSchema
  bad_data : BadData
  json_decoder : Option (JsonDecoder × List Int)
  buffered_count : Nat
  kafka_metadata_builder : Option (List Int × List Int × List Bytes)
  protoDecode : Bytes → Except String JRow

/-- Whether the constructor installs a json_decoder (de.rs lines 128-139):
any Json format, and Avro or Protobuf when not into_unstructured_json. -/
def jsonDecoderEnabled : Format → Bool
  | .json _ _ => true
  | .avro u => !u
  | .protobuf u => !u
  | _ => false

/-- de.rs with_schema_resolver construction (lines 110-165), minus the
resolver and proto-pool plumbing: the decoder starts empty over the
timestamp-free projection of the schema. -/
def ArrowDeserializer.new (format : Format) (schema : ArroyoSchema)
    (framing : Option Framing) (bad_data : BadData)
    (protoDecode : Bytes → Except String JRow) : ArrowDeserializer :=
  { format := format
    framing := framing
    schema := schema
    bad_data := bad_data
    json_decoder :=
      if jsonDecoderEnabled format then
        some (⟨schema.schema_without_timestamp, []⟩, [])
      else none
    buffered_count := 0
    kafka_metadata_builder := none
    protoDecode := protoDecode }

/-- de.rs decode_into_json (lines 358-377). -/
def decode_into_json (s : ArrowDeserializer) (b : Buffer) (row : JRow) (ts : Nat) :
    Option (ArrowDeserializer × Buffer) :=
  match s.schema.column_with_name valueName with
  | none => none
  | some idx =>
    match appendChecked s.schema b idx .str (.jstr (serializeRow row)) with
    | none => none
    | some b1 =>
      match add_timestamp s.schema b1 s.schema.timestamp_index ts with
      | none => none
      | some b2 => some ({ s with buffered_count := s.buffered_count + 1 }, b2)

/-- de.rs deserialize_single (lines 252-356).  The kafka metadata tuple
is (enabled, offset, partition, topic), as in the source.  Returns none
on panic, and otherwise the new state, the builder slice, and an
optional bad-data error. -/
def deserialize_single (s : ArrowDeserializer) (b : Buffer) (msg : Bytes) (ts : Nat)
    (km : Bool × Int × Int × Bytes) :
    Option (ArrowDeserializer × Buffer × Option String) :=
  match s.format with
  | .rawString | .json _ true =>
    match deserialize_raw_string s.schema b msg with
    | none => none
    | some b1 =>
      match add_timestamp s.schema b1 s.schema.timestamp_index ts with
      | none => none
      | some b2 =>
        if km.1 then
          match add_kafka_metadata s.schema b2 km.2.2.2 km.2.2.1 km.2.1 with
          | none => none
          | some b3 => some (s, b3, none)
        else some (s, b2, none)
  | .rawBytes =>
    match deserialize_raw_bytes s.schema b msg with
    | none => none
    | some b1 =>
      match add_timestamp s.schema b1 s.schema.timestamp_index ts with
      | none => none
      | some b2 =>
        if km.1 then
          match add_kafka_metadata s.schema b2 km.2.2.2 km.2.2.1 km.2.1 with
          | none => none
          | some b3 => some (s, b3, none)
        else some (s, b2, none)
  | .json confluent _ =>
    -- structured Json: the unstructured case matched above
    match (if confluent then (if msg.length < 5 then none else some (msg.drop 5))
           else some msg : Option Bytes) with
    | none => none  -- the slice msg[5..] panics when msg is shorter than 5 bytes
    | some msg1 =>
      match s.json_decoder with
      | none => none  -- panic: json decoder not initialized
      | some (dec, tsb) =>
        let s1 :=
          if km.1 then
            { s with
                kafka_metadata_builder := some (s.kafka_metadata_builder.getD ([], [], [])) }
          else s
        match dec.decode msg1 with
        | none => some (s1, b, some "invalid JSON")
        | some dec1 =>
          let tsb1 := tsb ++ [i64cast ts]
          let kb :=
            if km.1 then
              s1.kafka_metadata_builder.map
                (fun t => (t.1 ++ [km.2.1], t.2.1 ++ [km.2.2.1], t.2.2 ++ [km.2.2.2]))
            else s1.kafka_metadata_builder
          some ({ s1 with
                    json_decoder := some (dec1, tsb1)
                    kafka_metadata_builder := kb
                    buffered_count := s1.buffered_count + 1 }, b, none)
  | .protobuf intoUnstructured =>
    match s.protoDecode msg with
    | .error e => some (s, b, some e)
    | .ok row =>
      if intoUnstructured then
        match decode_into_json s b row ts with
        | none => none
        | some (s1, b1) => some (s1, b1, none)
      else
        match s.json_decoder with
        | none => none  -- panic: json decoder not initialized
        | some (dec, tsb) =>
          match dec.decode (serializeRow row) with
          | none => some (s, b, some "invalid JSON")
          | some dec1 =>
            let tsb1 := tsb ++ [i64cast ts]
            match (if km.1 then add_kafka_metadata s.schema b km.2.2.2 km.2.2.1 km.2.1
                   else some b : Option Buffer) with
            | none => none
            | some b1 =>
              some ({ s with
                        json_decoder := some (dec1, tsb1)
                        buffered_count := s.buffered_count + 1 }, b1, none)
  | .avro _ => none  -- unreachable: deserialize_slice routes Avro elsewhere
  | .parquet => none  -- todo: parquet is not supported as an input format

/-- The sequential fold behind deserialize_slice's iterator chain
(map deserialize_single, then filter_map err, then collect): decode each
framed record in order, collecting the per-record errors.  A panic in
any step aborts the whole call. -/
def sliceGo (s : ArrowDeserializer) (b : Buffer) (rs : List Bytes) (ts : Nat)
    (km : Bool × Int × Int × Bytes) :
    Option (ArrowDeserializer × Buffer × List String) :=
  match rs with
  | [] => some (s, b, [])
  | r :: rest =>
    match deserialize_single s b r ts km with
    | none => none
    | some (s1, b1, e) =>
      match sliceGo s1 b1 rest ts km with
      | none => none
      | some (s2, b2, errs) => some (s2, b2, e.toList ++ errs)

/-- Result of deserialize_slice: Avro messages take the batch-oriented
Avro path instead of the framed per-record path. -/
inductive SliceResult
  | avroDelegate
  | panicked
  | done (s : ArrowDeserializer) (b : Buffer) (errs : List String)

/-- de.rs deserialize_slice (lines 167-181). -/
def deserialize_slice (s : ArrowDeserializer) (b : Buffer) (msg : Bytes) (ts : Nat)
    (km : Bool × Int × Int × Bytes) : SliceResult :=
  match s.format with
  | .avro _ => .avroDelegate
  | _ =>
    match sliceGo s b (FramingIterator.records ⟨s.framing, msg, 0⟩) ts km with
    | none => .panicked
    | some (s1, b1, errs) => .done s1 b1 errs

/-- Vec::insert at an index. -/
def insertAt (cols : List (List JVal)) (idx : Nat) (c : List JVal) : List (List JVal) :=
  cols.take idx ++ c :: cols.drop idx

/-- Vec::remove at an index. -/
def removeAt (cols : List (List JVal)) (idx : Nat) : List (List JVal) :=
  cols.eraseIdx idx

/-- arrow's filter kernel applied to a builder array: keep the entries
whose mask bit is true. -/
def maskFilter (mask : List Bool) (xs : List Int) : List Int :=
  (xs.zip mask).filterMap (fun p => if p.2 then some p.1 else none)

/-- de.rs flush_buffer (lines 187-250).  Returns the new state and
Option (Result batch): none when no decoder exists or nothing is
buffered.  The batch is the decoder's columns with the timestamp
side-channel inserted at timestamp_index — filtered by the bad-data mask
under Drop — and, under Fail only, the queue-metadata side-channel
builders spliced over the topic/partition/offset columns when present. -/
def flush_buffer (s : ArrowDeserializer) :
    ArrowDeserializer × Option (Except String (List (List JVal))) :=
  match s.json_decoder with
  | none => (s, none)
  | some (dec, tsb) =>
    let s0 := { s with buffered_count := 0 }
    match s0.bad_data with
    | .fail =>
      match dec.flush with
      | (.error _, dec1) =>
        ({ s0 with json_decoder := some (dec1, tsb) },
         some (.error "JSON does not match schema"))
      | (.ok none, dec1) => ({ s0 with json_decoder := some (dec1, tsb) }, none)
      | (.ok (some cols), dec1) =>
        let cols1 := insertAt cols s0.schema.timestamp_index (tsb.map JVal.jint)
        match s0.kafka_metadata_builder with
        | none => ({ s0 with json_decoder := some (dec1, []) }, some (.ok cols1))
        | some (offb, partb, topb) =>
          let p2 :=
            match s0.schema.column_with_name topicName with
            | some i => (insertAt (removeAt cols1 i) i (topb.map JVal.jstr), ([] : List Bytes))
            | none => (cols1, topb)
          let p3 :=
            match s0.schema.column_with_name partitionName with
            | some i => (insertAt (removeAt p2.1 i) i (partb.map JVal.jint), ([] : List Int))
            | none => (p2.1, partb)
          let p4 :=
            match s0.schema.column_with_name offsetName with
            | some i => (insertAt (removeAt p3.1 i) i (offb.map JVal.jint), ([] : List Int))
            | none => (p3.1, offb)
          ({ s0 with
               json_decoder := some (dec1, [])
               kafka_metadata_builder := some (p4.2, p3.2, p2.2) },
           some (.ok p4.1))
    | .drop =>
      match dec.flush_with_bad_data with
      | (none, dec1) => ({ s0 with json_decoder := some (dec1, tsb) }, none)
      | (some (cols, mask), dec1) =>
        let tsArr := maskFilter mask tsb
        let cols1 := insertAt cols s0.schema.timestamp_index (tsArr.map JVal.jint)
        ({ s0 with json_decoder := some (dec1, []) }, some (.ok cols1))

-- ### Framing claims

theorem dropTrailingEmpty_eq_take (ss : List Bytes) :
    dropTrailingEmpty ss = ss.take (dropTrailingEmpty ss).length := by
  cases h : ss.getLast? with
  | none =>
    simp only [dropTrailingEmpty, h]
    simp
  | some v =>
    cases v with
    | nil =>
      simp only [dropTrailingEmpty, h]
      rw [List.length_dropLast, List.dropLast_eq_take]
    | cons a as =>
      simp only [dropTrailingEmpty, h]
      simp

/-- C6 counterexample: with no framing policy, the empty input produces
no record at all (the iterator's initial bound check returns None), not
one record holding the (empty) full input as the claim asserts. -/
theorem no_framing_empty_input_counterexample :
    FramingIterator.records ⟨none, [], 0⟩ = [] ∧
    FramingIterator.records ⟨none, [], 0⟩ ≠ [([] : Bytes)] := by
  exact ⟨rfl, by decide⟩

/-- C6 (amended): with no framing policy, every nonempty input produces
exactly one record containing the full input, and the iterator then
ends; the empty input produces no record. -/
theorem no_framing_yields_whole_input (buf : Bytes) (h : buf ≠ []) :
    FramingIterator.records ⟨none, buf, 0⟩ = [buf] := by
  have hlen : 0 < buf.length := List.length_pos.mpr h
  rw [FramingIterator.records]
  simp only
  have hfuel : buf.length + 1 - 0 = buf.length + 1 := by omega
  rw [hfuel, recordsFuel, next_no_framing buf 0 hlen]
  show buf :: recordsFuel buf.length ⟨none, buf, buf.length⟩ = [buf]
  rw [recordsFuel_stop _ _ (by simp)]

/-- C6 witness. -/
theorem no_framing_yields_whole_input_witness :
    FramingIterator.records ⟨none, [1, 2, 3], 0⟩ = [[1, 2, 3]] :=
  no_framing_yields_whole_input [1, 2, 3] (by decide)

/-- C4 counterexample: on the empty input, newline framing produces zero
records, while the claimed count — the number of newline-delimited
segments, ignoring only a trailing empty segment after a final newline —
is one (the empty input has one empty segment and no final newline). -/
theorem newline_count_empty_input_counterexample :
    (FramingIterator.records ⟨some ⟨.newline ⟨none⟩⟩, [], 0⟩).length ≠
      specClaimedRecordCount [] := by
  decide

/-- C4 (amended): under newline framing with any max_line_length
setting, the records are exactly the newline-delimited segments with the
final segment dropped when it is empty (so: ignoring a single trailing
empty segment after a final newline, and additionally the single empty
segment of the empty input), each truncated by the configured cap, in
input order; in particular the record count is the segment count minus
one exactly when the final segment is empty. -/
theorem newline_records_are_segments (mll : Option Nat) (buf : Bytes) :
    FramingIterator.records ⟨some ⟨.newline ⟨mll⟩⟩, buf, 0⟩ =
      (dropTrailingEmpty (splitNL buf)).map (capSeg mll) ∧
    (FramingIterator.records ⟨some ⟨.newline ⟨mll⟩⟩, buf, 0⟩).length =
      (dropTrailingEmpty (splitNL buf)).length := by
  have hmain : FramingIterator.records ⟨some ⟨.newline ⟨mll⟩⟩, buf, 0⟩ =
      (dropTrailingEmpty (splitNL buf)).map (capSeg mll) := by
    cases mll with
    | none =>
      have hid : capSeg none = fun r => r := by funext r; rfl
      rw [records_newline_eq buf, hid]
      simp
    | some l =>
      rw [records_cap_eq buf l, records_newline_eq buf]
      simp [capSeg]
  exact ⟨hmain, by rw [hmain, List.length_map]⟩

/-- C5: under newline framing with max_line_length = L, the produced
records are exactly the first-L-bytes truncations of the records the
uncapped iterator would produce from the same input — so each record is
a prefix of its unbounded segment, no extra record is ever emitted from
the discarded bytes, and every record has length at most L. -/
theorem newline_cap_truncates_records (l : Nat) (buf : Bytes) :
    FramingIterator.records ⟨some ⟨.newline ⟨some l⟩⟩, buf, 0⟩ =
      (FramingIterator.records ⟨some ⟨.newline ⟨none⟩⟩, buf, 0⟩).map
        (fun r => r.take l) ∧
    (FramingIterator.records ⟨some ⟨.newline ⟨some l⟩⟩, buf, 0⟩).all
      (fun r => decide (r.length ≤ l)) = true := by
  refine ⟨records_cap_eq buf l, ?_⟩
  rw [records_cap_eq buf l]
  apply List.all_eq_true.mpr
  intro r hr
  rw [List.mem_map] at hr
  obtain ⟨x, _, hx⟩ := hr
  subst hx
  simp

/-- C10 counterexample: the empty input falsifies "only the single empty
trailing segment after a final newline is suppressed": its single empty
segment does not follow a final newline, yet no empty record is
yielded. -/
theorem interior_empty_segment_counterexample :
    FramingIterator.records ⟨some ⟨.newline ⟨none⟩⟩, [], 0⟩ = [] ∧
    splitNL [] = [[]] ∧ ¬ ([] : Bytes).getLast? = some 10 := by
  refine ⟨rfl, rfl, by decide⟩

/-- C10 (amended): under newline framing the records are an initial run
of the newline-delimited segments — every segment before the suppression
point, including every interior empty segment produced by consecutive
newlines, is yielded verbatim at its own position, in input order; the
only segment ever suppressed is a final empty one (after a final
newline, or the sole segment of the empty input). -/
theorem newline_interior_empty_segments_kept (buf : Bytes) :
    FramingIterator.records ⟨some ⟨.newline ⟨none⟩⟩, buf, 0⟩ =
      (splitNL buf).take (dropTrailingEmpty (splitNL buf)).length := by
  rw [records_newline_eq buf]
  conv_lhs => rw [dropTrailingEmpty_eq_take]

-- ### Deserializer fixtures (mirroring the repository's own tests)

/-- Column name "x". -/
def xName : Bytes := [120]

/-- Column name "_timestamp". -/
def timestampName : Bytes := [95, 116, 105, 109, 101, 115, 116, 97, 109, 112]

/-- The test schema: an Int64 column x and the timestamp column. -/
def testSchema : ArroyoSchema := ⟨[(xName, .int64), (timestampName, .tsNanos)], 1⟩

/-- A proto decoder for deserializers with no compiled protobuf schema. -/
def noProto : Bytes → Except String JRow := fun _ => .error "no protobuf schema"

/-- The serialized object binding x to the integer 5. -/
def jsonMsgInt : Bytes := [123, 34, 120, 34, 58, 53, 125]

/-- The serialized object binding x to the string "hello". -/
def jsonMsgStr : Bytes := [123, 34, 120, 34, 58, 34, 104, 101, 108, 108, 111, 34, 125]

/-- Queue metadata disabled. -/
def kmDisabled : Bool × Int × Int × Bytes := (false, 0, 0, [])

/-- Fresh builders for the two-column test schema. -/
def emptyBuf2 : Buffer := [[], []]

/-- A structured-Json deserializer under the Drop policy. -/
def dropDeserializer : ArrowDeserializer :=
  ArrowDeserializer.new (.json false false) testSchema none .drop noProto

/-- A structured-Json deserializer under the Fail policy. -/
def failDeserializer : ArrowDeserializer :=
  ArrowDeserializer.new (.json false false) testSchema none .fail noProto

/-- C1: under the Drop policy, feeding the well-typed row binding x to 5
(arrival timestamp 100) and then the type-mismatched row binding x to a
string (arrival timestamp 200) produces no per-record errors, and the
flush produces a batch of exactly one row with x = 5 whose timestamp
column — the side-channel timestamp array filtered by the bad-data
exclusion mask and inserted at the timestamp index — holds exactly the
surviving row's arrival timestamp 100. -/
theorem drop_flush_keeps_well_typed_row :
    ∃ s1 s2 s3,
      deserialize_slice dropDeserializer emptyBuf2 jsonMsgInt 100 kmDisabled =
        .done s1 emptyBuf2 [] ∧
      deserialize_slice s1 emptyBuf2 jsonMsgStr 200 kmDisabled = .done s2 emptyBuf2 [] ∧
      flush_buffer s2 = (s3, some (.ok [[JVal.jint 5], [JVal.jint 100]])) := by
  refine ⟨_, _, _, rfl, rfl, rfl⟩

/-- C2: under the Fail policy, the same two-row input is accepted with no
per-record errors, and the flush returns a single bad-data error for the
whole cycle with no batch; the rows accumulated since the last flush are
gone from the decoder afterwards. -/
theorem fail_flush_rejects_batch :
    ∃ s1 s2 s3 dec tsb,
      deserialize_slice failDeserializer emptyBuf2 jsonMsgInt 100 kmDisabled =
        .done s1 emptyBuf2 [] ∧
      deserialize_slice s1 emptyBuf2 jsonMsgStr 200 kmDisabled = .done s2 emptyBuf2 [] ∧
      flush_buffer s2 = (s3, some (.error "JSON does not match schema")) ∧
      s3.json_decoder = some (dec, tsb) ∧
      dec.rows = [] := by
  refine ⟨_, _, _, _, _, rfl, rfl, rfl, rfl, rfl⟩

/-- Continuation property of the error-collecting fold: once a list of
framed records has been processed (its errors collected, its state
changes applied), any further records are processed from the resulting
state, with their errors appended after the earlier ones. -/
theorem sliceGo_append (rs1 rs2 : List Bytes) (s : ArrowDeserializer) (b : Buffer)
    (ts : Nat) (km : Bool × Int × Int × Bytes) (s1 : ArrowDeserializer) (b1 : Buffer)
    (e1 : List String) (h : sliceGo s b rs1 ts km = some (s1, b1, e1)) :
    sliceGo s b (rs1 ++ rs2) ts km =
      (sliceGo s1 b1 rs2 ts km).map (fun t => (t.1, t.2.1, e1 ++ t.2.2)) := by
  induction rs1 generalizing s b e1 with
  | nil =>
    simp only [sliceGo, Option.some_inj, Prod.mk.injEq] at h
    obtain ⟨hs, hb, he⟩ := h
    subst hs
    subst hb
    subst he
    simp only [List.nil_append]
    cases sliceGo s b rs2 ts km with
    | none => rfl
    | some t => simp
  | cons r rest ih =>
    simp only [sliceGo] at h
    cases hd : deserialize_single s b r ts km with
    | none => rw [hd] at h; simp at h
    | some t =>
      obtain ⟨sa, ba, ea⟩ := t
      simp only [hd] at h
      cases hg : sliceGo sa ba rest ts km with
      | none => rw [hg] at h; simp at h
      | some t2 =>
        obtain ⟨sc, bc, ec⟩ := t2
        simp only [hg, Option.some_inj, Prod.mk.injEq] at h
        obtain ⟨hs, hb, he⟩ := h
        subst hs
        subst hb
        rw [List.cons_append]
        simp only [sliceGo, hd]
        rw [ih _ _ _ hg]
        subst he
        cases sliceGo sc bc rs2 ts km with
        | none => rfl
        | some t3 =>
          obtain ⟨t3s, t3b, t3e⟩ := t3
          simp [List.append_assoc]

/-- C3: for a non-Avro format, deserialize_slice returns exactly the
errors collected by decoding each framed record of the message
independently, in order; and a record's failure never prevents the
records after it from being decoded — processing any further records
continues from the state the earlier records (including failing ones)
produced, appending their errors after the earlier ones. -/
theorem slice_collects_errors_per_record (s : ArrowDeserializer) (b : Buffer)
    (msg : Bytes) (ts : Nat) (km : Bool × Int × Int × Bytes) (rs2 : List Bytes)
    (s1 s2 : ArrowDeserializer) (b1 b2 : Buffer) (e1 e2 : List String)
    (hav : ∀ u, s.format ≠ .avro u)
    (h1 : sliceGo s b (FramingIterator.records ⟨s.framing, msg, 0⟩) ts km =
      some (s1, b1, e1))
    (h2 : sliceGo s1 b1 rs2 ts km = some (s2, b2, e2)) :
    deserialize_slice s b msg ts km = .done s1 b1 e1 ∧
    sliceGo s b (FramingIterator.records ⟨s.framing, msg, 0⟩ ++ rs2) ts km =
      some (s2, b2, e1 ++ e2) := by
  constructor
  · rw [deserialize_slice]
    cases hf : s.format with
    | avro u => exact absurd hf (hav u)
    | rawString => rw [h1]
    | rawBytes => rw [h1]
    | json c u => rw [h1]
    | protobuf u => rw [h1]
    | parquet => rw [h1]
  · rw [sliceGo_append _ rs2 _ _ _ _ _ _ _ h1, h2]
    simp

/-- A newline-framed structured-Json deserializer under Drop. -/
def framedDropDeserializer : ArrowDeserializer :=
  ArrowDeserializer.new (.json false false) testSchema (some ⟨.newline ⟨none⟩⟩) .drop noProto

/-- A message framing a malformed record and then the x = 5 record. -/
def c3msg : Bytes := [33, 10] ++ jsonMsgInt

/-- The state after processing c3msg: the malformed first record left an
error, the second record was still decoded and buffered. -/
def c3s1 : ArrowDeserializer :=
  { framedDropDeserializer with
      json_decoder :=
        some (⟨testSchema.schema_without_timestamp, [[(xName, JVal.jint 5)]]⟩, [7])
      buffered_count := 1 }

/-- The state after additionally processing the x = "hello" record. -/
def c3s2 : ArrowDeserializer :=
  { framedDropDeserializer with
      json_decoder :=
        some (⟨testSchema.schema_without_timestamp,
          [[(xName, JVal.jint 5)], [(xName, JVal.jstr [104, 101, 108, 108, 111])]]⟩, [7, 7])
      buffered_count := 2 }

/-- C3 witness. -/
theorem slice_collects_errors_per_record_witness :
    deserialize_slice framedDropDeserializer emptyBuf2 c3msg 7 kmDisabled =
      .done c3s1 emptyBuf2 ["invalid JSON"] ∧
    sliceGo framedDropDeserializer emptyBuf2
      (FramingIterator.records ⟨framedDropDeserializer.framing, c3msg, 0⟩ ++ [jsonMsgStr])
      7 kmDisabled = some (c3s2, emptyBuf2, ["invalid JSON"]) :=
  slice_collects_errors_per_record framedDropDeserializer emptyBuf2 c3msg 7 kmDisabled
    [jsonMsgStr] c3s1 c3s2 emptyBuf2 emptyBuf2 ["invalid JSON"] []
    (by intro u h; simp [framedDropDeserializer, ArrowDeserializer.new] at h) rfl rfl

/-- C7: in a Drop-policy flush, the bad-data exclusion mask is applied
only to the side-channel timestamp array, which is inserted at the
timestamp index over the decoder's own columns; the queue-metadata
side-channel builders are neither filtered, drained, nor spliced into
the batch — the result state keeps them untouched and the produced batch
does not depend on their contents, so the queue-metadata columns of the
batch are exactly those the incremental decoder produced. -/
theorem drop_flush_ignores_kafka_side_channel
    (s : ArrowDeserializer) (dec dec1 : JsonDecoder) (tsb : List Int)
    (kb kb' : List Int × List Int × List Bytes)
    (cols : List (List JVal)) (mask : List Bool)
    (hbd : s.bad_data = .drop)
    (hjd : s.json_decoder = some (dec, tsb))
    (hkb : s.kafka_metadata_builder = some kb)
    (hfl : dec.flush_with_bad_data = (some (cols, mask), dec1)) :
    flush_buffer s =
      ({ s with
           buffered_count := 0
           json_decoder := some (dec1, []) },
       some (.ok (insertAt cols s.schema.timestamp_index
         ((maskFilter mask tsb).map JVal.jint)))) ∧
    (flush_buffer { s with kafka_metadata_builder := some kb' }).2 =
      (flush_buffer s).2 := by
  obtain ⟨fmt, fr, sch, bd, jd, bc, kmb, pd⟩ := s
  simp only at hbd hjd hkb
  subst hbd
  subst hjd
  subst hkb
  constructor
  · simp [flush_buffer, hfl]
  · simp [flush_buffer, hfl]

/-- The incremental decoder state used by the C7 witness: the x = 5 row
and the x = "hello" row buffered against the integer column x. -/
def c7dec : JsonDecoder :=
  ⟨[(xName, .int64)], [[(xName, JVal.jint 5)], [(xName, JVal.jstr [104, 101, 108, 108, 111])]]⟩

/-- A Drop-policy deserializer with buffered rows, side-channel
timestamps and a populated queue-metadata side channel. -/
def c7state : ArrowDeserializer :=
  { dropDeserializer with
      json_decoder := some (c7dec, [100, 200])
      kafka_metadata_builder := some ([1], [2], [[116]]) }

/-- C7 witness. -/
theorem drop_flush_ignores_kafka_side_channel_witness :
    flush_buffer c7state =
      ({ c7state with
           buffered_count := 0
           json_decoder := some (⟨[(xName, CType.int64)], []⟩, []) },
       some (.ok (insertAt [[JVal.jint 5]] c7state.schema.timestamp_index
         ((maskFilter [true, false] [100, 200]).map JVal.jint)))) ∧
    (flush_buffer { c7state with kafka_metadata_builder := some ([9], [9], [[9]]) }).2 =
      (flush_buffer c7state).2 :=
  drop_flush_ignores_kafka_side_channel c7state c7dec ⟨[(xName, CType.int64)], []⟩
    [100, 200] ([1], [2], [[116]]) ([9], [9], [[9]]) [[JVal.jint 5]] [true, false]
    rfl rfl rfl rfl

/-- C8 (amended): for a structured Protobuf record that decodes to a
JSON value, the deserializer feeds the serialized value to the
incremental JSON buffer, appends the arrival timestamp to the
side-channel timestamp builder and increments the buffered-row count
exactly as the Json arm does on the same bytes — identically when queue
metadata is disabled — but queue metadata, when enabled, is appended
directly to the output column builders via add_kafka_metadata: the
queue-metadata side-channel builders are never staged or touched by the
Protobuf arm. -/
theorem proto_structured_matches_json_feed
    (s : ArrowDeserializer) (b : Buffer) (msg : Bytes) (ts : Nat)
    (km : Bool × Int × Int × Bytes) (row : JRow)
    (s1 : ArrowDeserializer) (b1 : Buffer) (e : Option String)
    (hfmt : s.format = .protobuf false)
    (hp : s.protoDecode msg = .ok row)
    (hres : deserialize_single s b msg ts km = some (s1, b1, e)) :
    s1.kafka_metadata_builder = s.kafka_metadata_builder ∧
    (km.1 = false →
      deserialize_single s b msg ts km =
        (deserialize_single { s with format := Format.json false false } b
            (serializeRow row) ts km).map
          (fun t => ({ t.1 with format := Format.protobuf false }, t.2))) := by
  obtain ⟨fmt, fr, sch, bd, jd, bc, kmb, pd⟩ := s
  simp only at hfmt hp
  subst hfmt
  cases jd with
  | none => simp [deserialize_single, hp] at hres
  | some dt =>
    obtain ⟨dec, tsb⟩ := dt
    cases hdec : dec.decode (serializeRow row) with
    | none =>
      constructor
      · simp [deserialize_single, hp, hdec] at hres
        obtain ⟨h1, h2, h3⟩ := hres
        rw [← h1]
      · intro hkm
        simp [deserialize_single, hp, hdec, hkm]
    | some dec1 =>
      by_cases hkmv : km.1 = true
      · cases hmeta : add_kafka_metadata sch b km.2.2.2 km.2.2.1 km.2.1 with
        | none => simp [deserialize_single, hp, hdec, hkmv, hmeta] at hres
        | some bx =>
          constructor
          · simp [deserialize_single, hp, hdec, hkmv, hmeta] at hres
            obtain ⟨h1, h2, h3⟩ := hres
            rw [← h1]
          · intro hkm
            rw [hkm] at hkmv
            exact absurd hkmv (by decide)
      · rw [Bool.not_eq_true] at hkmv
        constructor
        · simp [deserialize_single, hp, hdec, hkmv] at hres
          obtain ⟨h1, h2, h3⟩ := hres
          rw [← h1]
        · intro _
          simp [deserialize_single, hp, hdec, hkmv]

/-- The five-column schema with queue-metadata columns. -/
def metaSchema : ArroyoSchema :=
  ⟨[(xName, .int64), (timestampName, .tsNanos), (topicName, .str),
    (partitionName, .int32), (offsetName, .int64)], 1⟩

/-- The decoded protobuf value binding x to 7. -/
def protoRow : JRow := [(xName, JVal.jint 7)]

/-- A structured-Protobuf deserializer over the metadata schema. -/
def protoMetaDeserializer : ArrowDeserializer :=
  ArrowDeserializer.new (.protobuf false) metaSchema none .fail (fun _ => .ok protoRow)

/-- A structured-Json deserializer over the metadata schema. -/
def jsonMetaDeserializer : ArrowDeserializer :=
  ArrowDeserializer.new (.json false false) metaSchema none .fail (fun _ => .ok protoRow)

/-- Fresh builders for the five-column metadata schema. -/
def metaBuf : Buffer := [[], [], [], [], []]

/-- Queue metadata enabled: offset 42, partition 3, topic "t". -/
def kmEnabled : Bool × Int × Int × Bytes := (true, 42, 3, [116])

/-- C8 counterexample: with queue metadata enabled, a structured
Protobuf record does not behave identically to the Json case — the Json
arm stages the queue-metadata side-channel builders, while the Protobuf
arm leaves them unstaged (none) and instead appends the metadata to the
output column builders at the topic/partition/offset positions. -/
theorem proto_kafka_side_channel_counterexample :
    (deserialize_single protoMetaDeserializer metaBuf [0] 0 kmEnabled).map
        (fun t => t.1.kafka_metadata_builder) = some none ∧
    (deserialize_single jsonMetaDeserializer metaBuf (serializeRow protoRow) 0 kmEnabled).map
        (fun t => t.1.kafka_metadata_builder) = some (some ([42], [3], [[116]])) ∧
    (deserialize_single protoMetaDeserializer metaBuf [0] 0 kmEnabled).map
        (fun t => t.2.1) =
      some [[], [], [JVal.jstr [116]], [JVal.jint 3], [JVal.jint 42]] := by
  exact ⟨rfl, rfl, rfl⟩

/-- The state the C8 witness reaches: the row buffered, timestamp 11
appended, count incremented. -/
def c8s1 : ArrowDeserializer :=
  { protoMetaDeserializer with
      json_decoder :=
        some (⟨metaSchema.schema_without_timestamp, [[(xName, JVal.jint 7)]]⟩, [11])
      buffered_count := 1 }

/-- C8 witness. -/
theorem proto_structured_matches_json_feed_witness :
    c8s1.kafka_metadata_builder = protoMetaDeserializer.kafka_metadata_builder ∧
    (kmDisabled.1 = false →
      deserialize_single protoMetaDeserializer metaBuf [0] 11 kmDisabled =
        (deserialize_single { protoMetaDeserializer with format := Format.json false false }
            metaBuf (serializeRow protoRow) 11 kmDisabled).map
          (fun t => ({ t.1 with format := Format.protobuf false }, t.2))) :=
  proto_structured_matches_json_feed protoMetaDeserializer metaBuf [0] 11 kmDisabled
    protoRow c8s1 metaBuf none rfl rfl rfl

/-- C9 (amended): for a structured Json format with the Confluent
schema-registry envelope, a record of at least 5 bytes has exactly its
first 5 bytes stripped before the remainder is fed to the incremental
JSON buffer — the step behaves exactly like the non-Confluent Json arm
applied to the stripped bytes — and a remainder that fails to parse is
reported as a bad-data error returned to the caller; a record shorter
than 5 bytes, however, panics on the out-of-range slice msg[5..] rather
than producing a bad-data error (see the counterexample). -/
theorem confluent_strips_five_bytes (s : ArrowDeserializer) (b : Buffer) (msg : Bytes)
    (ts : Nat) (km : Bool × Int × Int × Bytes) (dec : JsonDecoder) (tsb : List Int)
    (hfmt : s.format = .json true false)
    (hlen : 5 ≤ msg.length) :
    deserialize_single s b msg ts km =
      (deserialize_single { s with format := Format.json false false } b (msg.drop 5)
          ts km).map
        (fun t => ({ t.1 with format := Format.json true false }, t.2)) ∧
    (s.json_decoder = some (dec, tsb) → parseRow (msg.drop 5) = none →
      deserialize_single s b msg ts km =
        some ((if km.1 then
                 { s with
                     kafka_metadata_builder :=
                       some (s.kafka_metadata_builder.getD ([], [], [])) }
               else s), b, some "invalid JSON")) := by
  obtain ⟨fmt, fr, sch, bd, jd, bc, kmb, pd⟩ := s
  simp only at hfmt
  subst hfmt
  have hnlt : ¬ msg.length < 5 := by omega
  constructor
  · cases jd with
    | none => simp [deserialize_single, hnlt]
    | some dt =>
      obtain ⟨dec0, tsb0⟩ := dt
      cases hdec : dec0.decode (msg.drop 5) with
      | none =>
        by_cases hkmv : km.1 = true
        · simp [deserialize_single, hnlt, hdec, hkmv]
        · rw [Bool.not_eq_true] at hkmv
          simp [deserialize_single, hnlt, hdec, hkmv]
      | some dec1 =>
        by_cases hkmv : km.1 = true
        · simp [deserialize_single, hnlt, hdec, hkmv]
        · rw [Bool.not_eq_true] at hkmv
          simp [deserialize_single, hnlt, hdec, hkmv]
  · intro hjd hparse
    simp only at hjd
    subst hjd
    have hdec : JsonDecoder.decode dec (msg.drop 5) = none := by
      simp [JsonDecoder.decode, hparse]
    by_cases hkmv : km.1 = true
    · simp [deserialize_single, hnlt, hdec, hkmv]
    · rw [Bool.not_eq_true] at hkmv
      simp [deserialize_single, hnlt, hdec, hkmv]

/-- A Confluent-envelope structured-Json deserializer. -/
def confluentDeserializer : ArrowDeserializer :=
  ArrowDeserializer.new (.json true false) testSchema none .fail noProto

/-- C9 counterexample: a Confluent-envelope record shorter than 5 bytes
makes the decode step panic (the slice expression msg[5..] is out of
range) — modelled as none — instead of returning a bad-data error as
the claim asserts; no error value is ever produced for this record. -/
theorem confluent_short_record_counterexample :
    deserialize_single confluentDeserializer emptyBuf2 [1, 2, 3] 0 kmDisabled = none := rfl

/-- A 5-byte envelope followed by a malformed JSON body. -/
def c9msg : Bytes := [0, 0, 0, 0, 0, 33]

/-- C9 witness. -/
theorem confluent_strips_five_bytes_witness :
    (deserialize_single confluentDeserializer emptyBuf2 c9msg 0 kmDisabled =
      (deserialize_single { confluentDeserializer with format := Format.json false false }
          emptyBuf2 (c9msg.drop 5) 0 kmDisabled).map
        (fun t => ({ t.1 with format := Format.json true false }, t.2))) ∧
    deserialize_single confluentDeserializer emptyBuf2 c9msg 0 kmDisabled =
      some (confluentDeserializer, emptyBuf2, some "invalid JSON") := by
  have h := confluent_strips_five_bytes confluentDeserializer emptyBuf2 c9msg 0 kmDisabled
    ⟨[(xName, CType.int64)], []⟩ [] rfl (by decide)
  exact ⟨h.1, h.2 rfl rfl⟩
